import Mathlib

/-!
Verification of the solace chat system (repository jamtartley/solace)
against its natural-language specification.

The development shallowly embeds the relevant Rust code:

* `Solace.Msg` — the message mini-language lexer and parser from
  `solace-message-parser/src/lexer.rs` and `parser.rs`.  The Rust lexer
  iterates Unicode grapheme clusters; the embedding models the input as a
  `List Char`, one `Char` per grapheme (all inputs used to settle claims
  are ASCII, where the two notions coincide).
* `Solace.Proto` — the bincode-based wire codec of
  `solace-protocol/src/response.rs` (and the identically encoded `Request`
  of `wangerz-protocol/src/request.rs`).  Rust `String` fields are
  modelled as their UTF-8 byte content (`List Nat`), with the UTF-8
  validity invariant made explicit where a theorem needs it.
* `Solace.WProto` — the hand-rolled big-endian decoder
  `impl TryFrom<&mut Vec<u8>> for Response` of
  `wangerz-protocol/src/response.rs`, with out-of-bounds indexing made
  explicit as a `panic` outcome.
* `Solace.Srv` — the per-request dispatch of
  `solace-server/src/main.rs::handle_client`, and a small transition
  system for the membership-map lifecycle of one session.
-/

namespace Solace

/-- Unicode `White_Space` code points, the set used by Rust's
`char::is_whitespace` (and hence by `str::trim` and by the lexer's
`str::trim().is_empty()` test on a single grapheme). -/
def rustIsWhitespace (c : Char) : Bool :=
  let n := c.toNat
  (0x09 ≤ n && n ≤ 0x0D) || n = 0x20 || n = 0x85 || n = 0xA0 || n = 0x1680 ||
    (0x2000 ≤ n && n ≤ 0x200A) || n = 0x2028 || n = 0x2029 || n = 0x202F ||
    n = 0x205F || n = 0x3000

/-- Rust `str::trim`: remove leading and trailing `White_Space` characters. -/
def rustTrim (s : String) : String :=
  ⟨((s.data.dropWhile rustIsWhitespace).reverse.dropWhile rustIsWhitespace).reverse⟩

namespace Msg

/-- Half-open span `[c0, c1)` in grapheme units (`TextSpan` in `lexer.rs`). -/
structure TextSpan where
  c0 : Nat
  c1 : Nat
deriving DecidableEq, Repr

/-- Token kinds of `solace-message-parser/src/lexer.rs`.  The committed
lexer declares `Text`, `Command`, `UserMention`, `ChannelMention` and `Eof`;
the parser (`parser.rs`) additionally matches on a `Whitespace(len)` kind,
so the kind type carries it, although `Lexer::lex` never produces it. -/
inductive TokenKind where
  | text (value : String)
  | command (value : String)
  | userMention (value : String)
  | channelMention (value : String)
  | whitespace (len : Nat)
  | eof
deriving DecidableEq, Repr

/-- A lexed token: kind plus span (`Token` in `lexer.rs`). -/
structure Token where
  kind : TokenKind
  span : TextSpan
deriving DecidableEq, Repr

/-- `Lexer::eat_whitespace`: advance past whitespace graphemes, returning the
remaining input together with the updated position. -/
def eatWhitespace : List Char → Nat → List Char × Nat
  | [], pos => ([], pos)
  | c :: rest, pos =>
    if rustIsWhitespace c then eatWhitespace rest (pos + 1) else (c :: rest, pos)

/-- `Lexer::consume_word`: take the maximal run of non-whitespace graphemes,
returning the word and the remaining input. -/
def consumeWord : List Char → List Char × List Char
  | [] => ([], [])
  | c :: rest =>
    if rustIsWhitespace c then ([], c :: rest)
    else
      let (w, r) := consumeWord rest
      (c :: w, r)

/-- Decide a word token's kind from its first grapheme, as in the `match
self.current()` of `Lexer::lex`.  The committed lexer has no position-0
restriction for any sigil. -/
def kindOf (c : Char) (word : String) : TokenKind :=
  if c = '/' then .command word
  else if c = '@' then .userMention word
  else if c = '#' then .channelMention word
  else .text word

/-- The loop of `Lexer::lex`: skip whitespace, classify the next word by its
first grapheme, consume the word, and repeat; at end of input push `Eof` at
the final position.  After `eat_whitespace` the head of the remaining input
is not whitespace, so `consume_word` takes it and continues on the tail.
The `fuel` argument only makes the recursion structural: every iteration of
the Rust loop consumes at least one grapheme, so `lex` below passes fuel
strictly greater than the number of iterations and the `0` branch is
unreachable. -/
def lexLoop : Nat → List Char → Nat → List Token
  | 0, _, _ => []
  | fuel + 1, content, pos =>
    match eatWhitespace content pos with
    | ([], start) => [⟨.eof, ⟨start, start⟩⟩]
    | (c :: tail, start) =>
      let w := (consumeWord tail).1
      let word : String := ⟨c :: w⟩
      ⟨kindOf c word, ⟨start, start + (c :: w).length⟩⟩ ::
        lexLoop fuel (consumeWord tail).2 (start + (c :: w).length)

/-- `Lexer::lex` on a whole message. -/
def lex (content : List Char) : List Token :=
  lexLoop (content.length + 1) content 0

/-- AST nodes of `parser.rs`.  Note the committed `Whitespace` node carries
only a length, not a span. -/
inductive AstNode where
  | command (span : TextSpan) (rawName parsedName : String) (args : List AstNode)
  | userMention (span : TextSpan) (rawUserName parsedUserName : String)
  | channelMention (span : TextSpan) (rawChannelName parsedChannelName : String)
  | text (span : TextSpan) (value : String)
  | whitespace (len : Nat)

/-- A parsed message (`AstMessage` in `parser.rs`). -/
inductive AstMessage where
  | command (node : AstNode)
  | normal (nodes : List AstNode)

/-- The node-collection loop shared by `impl Parse for AstMessage` and the
`args` loop of `impl Parse for AstNode`: repeatedly parse one node until the
`Eof` token.  A `Command` token consumes every remaining token as its `args`
(and nested `Command` tokens recurse the same way). -/
def parseNodes : List Token → List AstNode
  | [] => []
  | t :: rest =>
    match t.kind with
    | .eof => []
    | .text v => .text t.span v :: parseNodes rest
    | .userMention v => .userMention t.span v (v.drop 1) :: parseNodes rest
    | .channelMention v => .channelMention t.span v (v.drop 1) :: parseNodes rest
    | .whitespace n => .whitespace n :: parseNodes rest
    | .command v => [.command t.span v (v.drop 1) (parseNodes rest)]

/-- `impl Parse for AstMessage`: collect nodes, then inspect the first one.
The Rust code calls `unreachable!()` when the node list is empty; a panic is
modelled as `none`. -/
def astMessageParse (tokens : List Token) : Option AstMessage :=
  match parseNodes tokens with
  | [] => none
  | n :: rest =>
    match n with
    | .command _ _ _ _ => some (.command n)
    | _ => some (.normal (n :: rest))

/-- `Parser::new(message)` followed by `Parser::parse()`: lex the message and
parse the token stream.  The result is `none` exactly when the Rust code
panics. -/
def solaceParse (s : String) : Option AstMessage :=
  astMessageParse (lex s.data)

end Msg

namespace Proto

/-- Little-endian byte rendering of a fixed-width integer, `k` bytes wide
(bincode's fixint encoding, used by the free `bincode::serialize`). -/
def leBytes : Nat → Nat → List Nat
  | 0, _ => []
  | k + 1, n => n % 256 :: leBytes k (n / 256)

/-- Read a `k`-byte little-endian integer from the front of a byte stream. -/
def readLE : Nat → List Nat → Option (Nat × List Nat)
  | 0, bs => some (0, bs)
  | _ + 1, [] => none
  | k + 1, b :: bs =>
    match readLE k bs with
    | some (v, rest) => some (b + 256 * v, rest)
    | none => none

/-- Continuation byte test used by the UTF-8 validity check. -/
def utf8Cont (b : Nat) : Bool := 0x80 ≤ b && b ≤ 0xBF

/-- Validity of a byte sequence as UTF-8, the check performed by Rust's
`String::from_utf8` during deserialization of a `String` field (RFC 3629
ranges: no overlong forms, no surrogates, maximum U+10FFFF). -/
def utf8Valid : List Nat → Bool
  | [] => true
  | b :: bs =>
    if b ≤ 0x7F then utf8Valid bs
    else if 0xC2 ≤ b && b ≤ 0xDF then
      match bs with
      | b1 :: bs1 => utf8Cont b1 && utf8Valid bs1
      | [] => false
    else if b = 0xE0 then
      match bs with
      | b1 :: b2 :: bs2 => (0xA0 ≤ b1 && b1 ≤ 0xBF) && utf8Cont b2 && utf8Valid bs2
      | _ => false
    else if (0xE1 ≤ b && b ≤ 0xEC) || (0xEE ≤ b && b ≤ 0xEF) then
      match bs with
      | b1 :: b2 :: bs2 => utf8Cont b1 && utf8Cont b2 && utf8Valid bs2
      | _ => false
    else if b = 0xED then
      match bs with
      | b1 :: b2 :: bs2 => (0x80 ≤ b1 && b1 ≤ 0x9F) && utf8Cont b2 && utf8Valid bs2
      | _ => false
    else if b = 0xF0 then
      match bs with
      | b1 :: b2 :: b3 :: bs3 =>
        (0x90 ≤ b1 && b1 ≤ 0xBF) && utf8Cont b2 && utf8Cont b3 && utf8Valid bs3
      | _ => false
    else if 0xF1 ≤ b && b ≤ 0xF3 then
      match bs with
      | b1 :: b2 :: b3 :: bs3 =>
        utf8Cont b1 && utf8Cont b2 && utf8Cont b3 && utf8Valid bs3
      | _ => false
    else if b = 0xF4 then
      match bs with
      | b1 :: b2 :: b3 :: bs3 =>
        (0x80 ≤ b1 && b1 ≤ 0x8F) && utf8Cont b2 && utf8Cont b3 && utf8Valid bs3
      | _ => false
    else false

/-- Serialization of a Rust `String` field under bincode's fixint encoding:
a u64 little-endian byte length followed by the UTF-8 content bytes.  The
string is modelled by its UTF-8 byte content. -/
def serializeStr (s : List Nat) : List Nat :=
  leBytes 8 s.length ++ s

/-- Deserialization of a `String` field: read the u64 length, take that many
bytes, and validate them as UTF-8 (`String::from_utf8` inside serde). -/
def readStr (bs : List Nat) : Option (List Nat × List Nat) :=
  match readLE 8 bs with
  | none => none
  | some (len, rest) =>
    if len ≤ rest.length then
      if utf8Valid (rest.take len) then some (rest.take len, rest.drop len)
      else none
    else none

/-- The tagged request payload (`RequestMessage` in
`wangerz-protocol/src/request.rs`; the solace server consumes the same six
variants).  Rust `String` fields are modelled by their UTF-8 byte content. -/
inductive RequestMessage where
  | ping
  | message (text : List Nat)
  | newTopic (text : List Nat)
  | newNick (text : List Nat)
  | whoIs (nick : List Nat)
  | disconnect

/-- Bincode serialization of the enum: a u32 little-endian variant index in
declaration order, then the variant's fields. -/
def RequestMessage.serialize : RequestMessage → List Nat
  | .ping => leBytes 4 0
  | .message t => leBytes 4 1 ++ serializeStr t
  | .newTopic t => leBytes 4 2 ++ serializeStr t
  | .newNick t => leBytes 4 3 ++ serializeStr t
  | .whoIs t => leBytes 4 4 ++ serializeStr t
  | .disconnect => leBytes 4 5

/-- Bincode deserialization of the enum: read the u32 variant index and
dispatch; an out-of-range index is a deserialization error. -/
def readReqMessage (bs : List Nat) : Option (RequestMessage × List Nat) :=
  match readLE 4 bs with
  | none => none
  | some (0, rest) => some (.ping, rest)
  | some (1, rest) => (readStr rest).map fun p => (.message p.1, p.2)
  | some (2, rest) => (readStr rest).map fun p => (.newTopic p.1, p.2)
  | some (3, rest) => (readStr rest).map fun p => (.newNick p.1, p.2)
  | some (4, rest) => (readStr rest).map fun p => (.whoIs p.1, p.2)
  | some (5, rest) => some (.disconnect, rest)
  | some _ => none

/-- Type invariants carried by the Rust representation of the payload:
string fields are valid UTF-8 and their length fits in a u64. -/
def RequestMessage.wf : RequestMessage → Prop
  | .ping => True
  | .message t => utf8Valid t = true ∧ t.length < 256 ^ 8
  | .newTopic t => utf8Valid t = true ∧ t.length < 256 ^ 8
  | .newNick t => utf8Valid t = true ∧ t.length < 256 ^ 8
  | .whoIs t => utf8Valid t = true ∧ t.length < 256 ^ 8
  | .disconnect => True

instance : ∀ m : RequestMessage, Decidable m.wf := by
  intro m
  cases m <;> simp only [RequestMessage.wf] <;> infer_instance

/-- The inbound record (`Request` in `wangerz-protocol/src/request.rs`):
`version : u8`, `id : u32`, `message : RequestMessage`. -/
structure Request where
  version : Nat
  id : Nat
  message : RequestMessage

/-- Type invariants of the Rust `Request`: the integer fields fit their
declared widths and the payload is well formed. -/
def Request.wf (r : Request) : Prop :=
  r.version < 256 ^ 1 ∧ r.id < 256 ^ 4 ∧ r.message.wf

instance (r : Request) : Decidable r.wf := by
  unfold Request.wf; infer_instance

/-- `Request::encode`: `bincode::serialize` of the fields in declaration
order, then the `\r\n` frame terminator. -/
def Request.encode (r : Request) : List Nat :=
  leBytes 1 r.version ++ leBytes 4 r.id ++ r.message.serialize ++ [13, 10]

/-- `Request::decode`, i.e. `bincode::deserialize`: read the fields in
declaration order; trailing bytes (the `\r\n` terminator) are permitted by
the legacy bincode configuration the free function uses. -/
def Request.decode (bs : List Nat) : Option Request :=
  match readLE 1 bs with
  | none => none
  | some (v, rest) =>
    match readLE 4 rest with
    | none => none
    | some (i, rest2) =>
      match readReqMessage rest2 with
      | none => none
      | some (m, _) => some ⟨v, i, m⟩

/-- The outbound record (`Response` in `solace-protocol/src/response.rs`):
`version : u8`, `request_id : u32`, `timestamp : u64`, `code : u16`,
`origin_length : u8`, `origin : String`, `message : String`. -/
structure Response where
  version : Nat
  request_id : Nat
  timestamp : Nat
  code : Nat
  origin_length : Nat
  origin : List Nat
  message : List Nat

/-- Type invariants of the Rust `Response`. -/
def Response.wf (s : Response) : Prop :=
  s.version < 256 ^ 1 ∧ s.request_id < 256 ^ 4 ∧ s.timestamp < 256 ^ 8 ∧
    s.code < 256 ^ 2 ∧ s.origin_length < 256 ^ 1 ∧
    utf8Valid s.origin = true ∧ s.origin.length < 256 ^ 8 ∧
    utf8Valid s.message = true ∧ s.message.length < 256 ^ 8

instance (s : Response) : Decidable s.wf := by
  unfold Response.wf; infer_instance

/-- `Response::encode`: `bincode::serialize` of the seven fields in
declaration order, then the `\r\n` frame terminator. -/
def Response.encode (s : Response) : List Nat :=
  leBytes 1 s.version ++ leBytes 4 s.request_id ++ leBytes 8 s.timestamp ++
    leBytes 2 s.code ++ leBytes 1 s.origin_length ++ serializeStr s.origin ++
    serializeStr s.message ++ [13, 10]

/-- `Response::decode`, i.e. `bincode::deserialize` with trailing bytes
permitted. -/
def Response.decode (bs : List Nat) : Option Response :=
  match readLE 1 bs with
  | none => none
  | some (v, r1) =>
    match readLE 4 r1 with
    | none => none
    | some (rid, r2) =>
      match readLE 8 r2 with
      | none => none
      | some (ts, r3) =>
        match readLE 2 r3 with
        | none => none
        | some (c, r4) =>
          match readLE 1 r4 with
          | none => none
          | some (ol, r5) =>
            match readStr r5 with
            | none => none
            | some (og, r6) =>
              match readStr r6 with
              | none => none
              | some (m, _) => some ⟨v, rid, ts, c, ol, og, m⟩

end Proto

namespace WProto

/-- Decoded wangerz response record (`Response` in
`wangerz-protocol/src/response.rs`); string fields are modelled by their
UTF-8 byte content. -/
structure WResponse where
  version : Nat
  request_id : Nat
  timestamp : Nat
  code : Nat
  origin_length : Nat
  origin : List Nat
  message : List Nat

/-- Outcome of `impl TryFrom<&mut Vec<u8>> for Response`.  The Rust function
drains the frame out of the buffer and returns a `Result`; `panic` marks
executions that index or slice out of bounds (or overflow the `u8` addition
`16 + origin_length`). -/
inductive TryFromResult where
  | ok (r : WResponse) (buf : List Nat)
  | err (msg : String) (buf : List Nat)
  | panic

/-- Position of the first `\r\n` byte pair, as computed by
`buf.windows(2).position(|w| w == b"\r\n")`. -/
def findCrlf : List Nat → Option Nat
  | 13 :: 10 :: _ => some 0
  | _ :: rest => (findCrlf rest).map (· + 1)
  | [] => none

/-- Big-endian value of a byte list (`uNN::from_be_bytes`). -/
def beVal (l : List Nat) : Nat := l.foldl (fun a b => 256 * a + b) 0

/-- The body of `try_from`.  `parseable` is the drained frame including its
`\r\n` terminator (`buf.drain(..pos + 2)`), so the guard
`parseable.len() < 13` counts the terminator bytes.  Indices `0..=12` are in
bounds whenever the guard passes; the reads of `parseable[13]`,
`parseable[14]`, `parseable[15]` and the two slices are not guarded in the
Rust code and panic when out of bounds. -/
def wTryFrom (buf : List Nat) : TryFromResult :=
  match findCrlf buf with
  | none => .err "Invalid response" buf
  | some pos =>
    let parseable := buf.take (pos + 2)
    let rest := buf.drop (pos + 2)
    if parseable.length < 13 then .err "Invalid response: too short" rest
    else
      let version := parseable.getD 0 0
      let request_id := beVal ((parseable.drop 1).take 4)
      let timestamp := beVal ((parseable.drop 5).take 8)
      match parseable.get? 13, parseable.get? 14, parseable.get? 15 with
      | some c13, some c14, some ol =>
        let code := 256 * c13 + c14
        if 16 + ol > 255 then .panic
        else
          let originEnd := 16 + ol
          if parseable.length < originEnd then .panic
          else
            let origin := (parseable.drop 16).take (originEnd - 16)
            let message := parseable.drop originEnd
            if Proto.utf8Valid origin then
              if Proto.utf8Valid message then
                .ok ⟨version, request_id, timestamp, code, ol, origin, message⟩ rest
              else .err "invalid utf-8 sequence" rest
            else .err "invalid utf-8 sequence" rest
      | _, _, _ => .panic

end WProto

namespace Srv

/-- Socket addresses are opaque stable identifiers. -/
abbrev Addr := Nat

/-- Hub state guarded by the mutex (`struct Server` in
`solace-server/src/main.rs`): the membership map and the topic.  The
`HashMap<SocketAddr, (String, Tx)>` is modelled as an association list of
address/nickname pairs; a mailbox sender handle is represented by the
address it targets, broadcasts being returned as explicit
address/event pairs. -/
structure Server where
  clients : List (Addr × String)
  topic : String

/-- Hub events (`enum Message` in `solace-server/src/main.rs`); the
`MessageClient { addr, nick }` payload is flattened into two fields. -/
inductive HubMessage where
  | clientConnected (nick : String)
  | clientDisconnected (nick : String)
  | sent (fromAddr : Addr) (fromNick : String) (message : String)
  | topicChanged (fromAddr : Addr) (fromNick : String) (topic : String)
  | nickChanged (fromAddr : Addr) (fromNick : String) (newNick : String)
  | whoIs (addr : Option Addr) (nick : String)

/-- `HashMap::contains_key` on the association-list model. -/
def hmContains (m : List (Addr × String)) (k : Addr) : Bool :=
  m.any (fun p => p.1 == k)

/-- `HashMap::insert`: replace the value under an existing key, otherwise
add the binding. -/
def hmInsert (m : List (Addr × String)) (k : Addr) (v : String) :
    List (Addr × String) :=
  if hmContains m k then m.map (fun p => if p.1 == k then (k, v) else p)
  else m ++ [(k, v)]

/-- `HashMap::get` / `get_mut` (lookup half): the nickname stored under a
key. -/
def hmGet (m : List (Addr × String)) (k : Addr) : Option String :=
  (m.find? (fun p => p.1 == k)).map (·.2)

/-- Writing through `get_mut`: replace the value stored under a key (a no-op
when the key is absent — the Rust code panics in that case before writing,
which the dispatcher models separately). -/
def hmUpdate (m : List (Addr × String)) (k : Addr) (v : String) :
    List (Addr × String) :=
  m.map (fun p => if p.1 == k then (p.1, v) else p)

/-- `HashMap::remove`. -/
def hmRemove (m : List (Addr × String)) (k : Addr) : List (Addr × String) :=
  m.filter (fun p => !(p.1 == k))

/-- `Server::broadcast_all`: enqueue the event to every present mailbox. -/
def broadcastAll (m : List (Addr × String)) (msg : HubMessage) :
    List (Addr × HubMessage) :=
  m.map (fun p => (p.1, msg))

/-- `Server::broadcast_others`: as `broadcast_all`, skipping the sender. -/
def broadcastOthers (m : List (Addr × String)) (msg : HubMessage)
    (sender : Addr) : List (Addr × HubMessage) :=
  (m.filter (fun p => !(p.1 == sender))).map (fun p => (p.1, msg))

/-- `Server::broadcast_to`: enqueue to the one target when present. -/
def broadcastTo (m : List (Addr × String)) (msg : HubMessage) (tgt : Addr) :
    List (Addr × HubMessage) :=
  if hmContains m tgt then [(tgt, msg)] else []

/-- `Server::get_by_nick`: the address of the first entry holding the
nickname. -/
def getByNick (m : List (Addr × String)) (nick : String) : Option Addr :=
  (m.find? (fun p => p.2 == nick)).map (·.1)

/-- The request payload as consumed by `handle_client`, at the Rust
`String` (character) level. -/
inductive ReqMessage where
  | ping
  | message (text : String)
  | newTopic (text : String)
  | newNick (text : String)
  | whoIs (nick : String)
  | disconnect

/-- An inbound request as seen by the dispatcher: the client-chosen id and
the payload. -/
structure Req where
  id : Nat
  message : ReqMessage

/-- UTF-8 bytes of an ASCII string; used for payloads the dispatcher builds
itself (decimal ids, `"Pong"`), which are all ASCII. -/
def asciiBytes (s : String) : List Nat := s.data.map Char.toNat

/-- Decimal rendering of a request id, as bytes (`req.id.to_string()`). -/
def decimalBytes (n : Nat) : List Nat := asciiBytes (toString n)

/-- `ResponseBuilder::new(code, message).build()` as invoked by the
`respond!` macro: `version` is 1, `request_id` stays at the `Default` value
0 (`with_request_id` is never called by the macro), `timestamp` is the wall
clock at build time (passed as `now`), `origin_length` is the byte length of
the origin. -/
def build (now code : Nat) (origin message : List Nat) : Proto.Response :=
  ⟨1, 0, now, code, origin.length, origin, message⟩

/-- Outcome of one inbound-request iteration of the `tokio::select!` loop in
`handle_client`: the hub state and session nickname afterwards, the
responses written to this session's outbound stream in program order, the
events enqueued to mailboxes (address/event pairs, in enqueue order), the
loop-exit flag (`break` on `Disconnect`) and a panic marker.  When
`panicked` is set (the `NewNick` branch unwraps a failed map lookup), the
fields hold the values at the moment of the panic: the ack was already
written, nothing was enqueued. -/
structure DispatchOut where
  server : Server
  nick : String
  writes : List Proto.Response
  queued : List (Addr × HubMessage)
  exit : Bool
  panicked : Bool

/-- Response codes from `solace-protocol/src/code.rs` used by the
dispatcher. -/
def RES_ACK_MESSAGE : Nat := 0

/-- Code `RES_PONG` of `solace-protocol/src/code.rs`. -/
def RES_PONG : Nat := 5

/-- The inbound branch of the `tokio::select!` loop in `handle_client`,
lines 195–267 of `solace-server/src/main.rs`: first acknowledge with
`respond!(client, RES_ACK_MESSAGE, req.id.to_string())`, then interpret the
variant. -/
def dispatch (sv : Server) (addr : Addr) (nick : String) (r : Req)
    (now : Nat) : DispatchOut :=
  let ack := build now RES_ACK_MESSAGE [] (decimalBytes r.id)
  match r.message with
  | .ping =>
    ⟨sv, nick, [ack, build now RES_PONG [] (asciiBytes "Pong")], [], false, false⟩
  | .message text =>
    ⟨sv, nick, [ack], broadcastOthers sv.clients (.sent addr nick text) addr,
      false, false⟩
  | .newTopic text =>
    let trimmed := rustTrim text
    ⟨{ sv with topic := trimmed }, nick, [ack],
      broadcastAll sv.clients (.topicChanged addr nick trimmed), false, false⟩
  | .newNick text =>
    let trimmed := rustTrim text
    match hmGet sv.clients addr with
    | none => ⟨sv, trimmed, [ack], [], false, true⟩
    | some _ =>
      let clients := hmUpdate sv.clients addr trimmed
      ⟨{ sv with clients := clients }, trimmed, [ack],
        broadcastAll clients (.nickChanged addr nick trimmed), false, false⟩
  | .disconnect =>
    let clients := hmRemove sv.clients addr
    ⟨{ sv with clients := clients }, nick, [ack],
      broadcastOthers clients (.clientDisconnected nick) addr, true, false⟩
  | .whoIs target =>
    ⟨sv, nick, [ack],
      broadcastTo sv.clients (.whoIs (getByNick sv.clients target) target) addr,
      false, false⟩

/-- Phase of the distinguished session task inside `handle_client`: inside
the select loop, after `break`ing out of it via an orderly `Disconnect`
request, or after the final cleanup block. -/
inductive Phase where
  | active
  | leftOrderly
  | done
deriving DecidableEq

/-- The hub membership map together with the distinguished session's local
state. -/
structure LoopState where
  clients : List (Addr × String)
  nick : String
  phase : Phase

/-- Number of entries stored under a key. -/
def countKey (m : List (Addr × String)) (k : Addr) : Nat :=
  (m.filter (fun p => p.1 == k)).length

/-- Transitions involving the distinguished session at address `a`:
processing one inbound request (with the hub topic arbitrary), loop exit on
end-of-stream or error followed by the final cleanup block, the final
cleanup block alone after an orderly `Disconnect`, and arbitrary actions of
other sessions on addresses other than `a` (no other live session shares
the TCP remote address `a`). -/
inductive Step (a : Addr) : LoopState → LoopState → Prop where
  | request (s : LoopState) (r : Req) (now : Nat) (topic : String) :
      s.phase = .active →
      Step a s
        ⟨(dispatch ⟨s.clients, topic⟩ a s.nick r now).server.clients,
         (dispatch ⟨s.clients, topic⟩ a s.nick r now).nick,
         if (dispatch ⟨s.clients, topic⟩ a s.nick r now).exit then .leftOrderly
         else .active⟩
  | streamEnd (s : LoopState) :
      s.phase = .active →
      Step a s ⟨hmRemove s.clients a, s.nick, .done⟩
  | cleanupAfterDisconnect (s : LoopState) :
      s.phase = .leftOrderly →
      Step a s ⟨hmRemove s.clients a, s.nick, .done⟩
  | envInsert (s : LoopState) (b : Addr) (v : String) :
      b ≠ a →
      Step a s ⟨hmInsert s.clients b v, s.nick, s.phase⟩
  | envUpdate (s : LoopState) (b : Addr) (v : String) :
      b ≠ a →
      Step a s ⟨hmUpdate s.clients b v, s.nick, s.phase⟩
  | envRemove (s : LoopState) (b : Addr) :
      b ≠ a →
      Step a s ⟨hmRemove s.clients b, s.nick, s.phase⟩

/-- States reachable from the moment the session is registered
(`server.clients.insert(addr, (nick, tx))` in `handle_client`): at accept
time no live session holds the remote address `a`. -/
inductive Reach (a : Addr) : LoopState → Prop where
  | init (clients0 : List (Addr × String)) (nick0 : String) :
      countKey clients0 a = 0 →
      Reach a ⟨hmInsert clients0 a nick0, nick0, .active⟩
  | step (s s' : LoopState) : Reach a s → Step a s s' → Reach a s'

end Srv

end Solace

namespace Solace.Proto

theorem readLE_leBytes (k : Nat) (n : Nat) (rest : List Nat) (h : n < 256 ^ k) :
    readLE k (leBytes k n ++ rest) = some (n, rest) := by
  induction k generalizing n with
  | zero =>
    simp only [pow_zero, Nat.lt_one_iff] at h
    subst h
    rfl
  | succ k ih =>
    have hdiv : n / 256 < 256 ^ k := by
      apply Nat.div_lt_of_lt_mul
      calc n < 256 ^ (k + 1) := h
        _ = 256 * 256 ^ k := by ring
    simp only [leBytes, readLE, List.cons_append, List.append_eq]
    rw [ih (n / 256) hdiv]
    show some (n % 256 + 256 * (n / 256), rest) = some (n, rest)
    rw [Nat.mod_add_div n 256]

theorem readStr_serializeStr (s : List Nat) (rest : List Nat)
    (hv : utf8Valid s = true) (hl : s.length < 256 ^ 8) :
    readStr (serializeStr s ++ rest) = some (s, rest) := by
  simp only [readStr, serializeStr, List.append_assoc,
    readLE_leBytes 8 s.length (s ++ rest) hl]
  rw [List.take_left, List.drop_left]
  simp [hv]

theorem readReqMessage_serialize (m : RequestMessage) (rest : List Nat)
    (h : m.wf) :
    readReqMessage (m.serialize ++ rest) = some (m, rest) := by
  cases m with
  | ping =>
    simp only [RequestMessage.serialize, readReqMessage,
      readLE_leBytes 4 0 rest (by norm_num)]
  | message t =>
    simp only [RequestMessage.wf] at h
    simp only [RequestMessage.serialize, readReqMessage, List.append_assoc,
      readLE_leBytes 4 1 (serializeStr t ++ rest) (by norm_num),
      readStr_serializeStr t rest h.1 h.2]
    rfl
  | newTopic t =>
    simp only [RequestMessage.wf] at h
    simp only [RequestMessage.serialize, readReqMessage, List.append_assoc,
      readLE_leBytes 4 2 (serializeStr t ++ rest) (by norm_num),
      readStr_serializeStr t rest h.1 h.2]
    rfl
  | newNick t =>
    simp only [RequestMessage.wf] at h
    simp only [RequestMessage.serialize, readReqMessage, List.append_assoc,
      readLE_leBytes 4 3 (serializeStr t ++ rest) (by norm_num),
      readStr_serializeStr t rest h.1 h.2]
    rfl
  | whoIs t =>
    simp only [RequestMessage.wf] at h
    simp only [RequestMessage.serialize, readReqMessage, List.append_assoc,
      readLE_leBytes 4 4 (serializeStr t ++ rest) (by norm_num),
      readStr_serializeStr t rest h.1 h.2]
    rfl
  | disconnect =>
    simp only [RequestMessage.serialize, readReqMessage,
      readLE_leBytes 4 5 rest (by norm_num)]

end Solace.Proto

namespace Solace.Srv

theorem countKey_nil (k : Addr) : countKey [] k = 0 := rfl

theorem countKey_cons (p : Addr × String) (m : List (Addr × String)) (k : Addr) :
    countKey (p :: m) k = (if p.1 = k then 1 else 0) + countKey m k := by
  by_cases hk : p.1 = k <;> (simp [countKey, List.filter_cons, hk]; try omega)

theorem countKey_append (m l : List (Addr × String)) (k : Addr) :
    countKey (m ++ l) k = countKey m k + countKey l k := by
  simp [countKey, List.filter_append]

theorem countKey_map (f : Addr × String → Addr × String)
    (hf : ∀ p, (f p).1 = p.1) (m : List (Addr × String)) (a : Addr) :
    countKey (m.map f) a = countKey m a := by
  induction m with
  | nil => rfl
  | cons p rest ih =>
    rw [List.map_cons, countKey_cons, countKey_cons, ih, hf p]

theorem hmContains_eq_false (m : List (Addr × String)) (k : Addr)
    (h : countKey m k = 0) : hmContains m k = false := by
  induction m with
  | nil => rfl
  | cons p rest ih =>
    rw [countKey_cons] at h
    by_cases hk : p.1 = k
    · simp [hk] at h
    · simp only [hmContains, List.any_cons] at ih ⊢
      simp [hk, ih (by omega)]

theorem countKey_hmInsert_self (m : List (Addr × String)) (k : Addr)
    (v : String) (h : countKey m k = 0) :
    countKey (hmInsert m k v) k = 1 := by
  rw [hmInsert, hmContains_eq_false m k h]
  simp only [if_neg Bool.false_ne_true, countKey_append, h]
  simp [countKey_cons, countKey_nil]

theorem countKey_hmInsert_ne (m : List (Addr × String)) (b : Addr)
    (v : String) (a : Addr) (hba : b ≠ a) :
    countKey (hmInsert m b v) a = countKey m a := by
  rw [hmInsert]
  by_cases hc : hmContains m b = true
  · rw [if_pos hc]
    apply countKey_map
    intro p
    by_cases hp : p.1 = b <;> simp [hp]
  · rw [if_neg hc, countKey_append, countKey_cons, countKey_nil]
    simp [hba]

theorem countKey_hmUpdate (m : List (Addr × String)) (b : Addr) (v : String)
    (a : Addr) : countKey (hmUpdate m b v) a = countKey m a := by
  apply countKey_map
  intro p
  by_cases hp : p.1 = b <;> simp [hp]

theorem countKey_hmRemove_self (m : List (Addr × String)) (a : Addr) :
    countKey (hmRemove m a) a = 0 := by
  induction m with
  | nil => rfl
  | cons p rest ih =>
    simp only [hmRemove, List.filter_cons] at ih ⊢
    by_cases hk : p.1 = a
    · simp [hk, ih]
    · simp [hk, countKey_cons, ih]

theorem countKey_hmRemove_ne (m : List (Addr × String)) (b : Addr) (a : Addr)
    (hba : b ≠ a) : countKey (hmRemove m b) a = countKey m a := by
  induction m with
  | nil => rfl
  | cons p rest ih =>
    simp only [hmRemove, List.filter_cons] at ih ⊢
    by_cases hk : p.1 = b
    · rw [countKey_cons]
      simp [hk, hba, ih]
    · simp [hk, countKey_cons, ih]

theorem hmRemove_of_countKey_zero (m : List (Addr × String)) (a : Addr)
    (h : countKey m a = 0) : hmRemove m a = m := by
  induction m with
  | nil => rfl
  | cons p rest ih =>
    rw [countKey_cons] at h
    by_cases hk : p.1 = a
    · simp [hk] at h
    · simp only [hmRemove, List.filter_cons] at ih ⊢
      simp [hk, ih (by omega)]

theorem hmGet_ne_none_of_countKey_one (m : List (Addr × String)) (a : Addr)
    (h : countKey m a = 1) : hmGet m a ≠ none := by
  induction m with
  | nil => simp [countKey] at h
  | cons p rest ih =>
    rw [countKey_cons] at h
    by_cases hk : p.1 = a
    · rw [hmGet, List.find?_cons_of_pos _ (by simp [hk])]
      simp
    · rw [hmGet, List.find?_cons_of_neg _ (by simp [hk])]
      exact ih (by simp [hk] at h; omega)

theorem hmGet_hmUpdate_self (m : List (Addr × String)) (k : Addr) (v : String)
    (h : hmGet m k ≠ none) : hmGet (hmUpdate m k v) k = some v := by
  induction m with
  | nil => simp [hmGet] at h
  | cons p rest ih =>
    by_cases hk : p.1 = k
    · rw [hmUpdate, List.map_cons]
      simp only [hk, beq_self_eq_true, if_true]
      rw [hmGet, List.find?_cons_of_pos _ (by simp [hk])]
      rfl
    · have h' : hmGet rest k ≠ none := by
        rw [hmGet, List.find?_cons_of_neg _ (by simp [hk])] at h
        exact h
      have hhead : (if (p.1 == k) = true then (p.1, v) else p) = p := by
        simp [hk]
      rw [hmUpdate, List.map_cons, hhead, hmGet,
        List.find?_cons_of_neg _ (by simp [hk])]
      exact ih h'

theorem reach_inv (a : Addr) (s : LoopState) (h : Reach a s) :
    (s.phase = .active → countKey s.clients a = 1) ∧
    (s.phase ≠ .active → countKey s.clients a = 0) := by
  induction h with
  | init clients0 nick0 h0 =>
    exact ⟨fun _ => countKey_hmInsert_self clients0 a nick0 h0,
      fun hne => absurd rfl hne⟩
  | step s1 s2 hr hs ih =>
    cases hs with
    | request r now topic hact =>
      have h1 := ih.1 hact
      obtain ⟨id, msg⟩ := r
      cases msg with
      | ping => exact ⟨fun _ => h1, fun hne => absurd rfl hne⟩
      | message text => exact ⟨fun _ => h1, fun hne => absurd rfl hne⟩
      | newTopic text => exact ⟨fun _ => h1, fun hne => absurd rfl hne⟩
      | whoIs target => exact ⟨fun _ => h1, fun hne => absurd rfl hne⟩
      | newNick text =>
        cases hg : hmGet s1.clients a with
        | none => exact absurd hg (hmGet_ne_none_of_countKey_one s1.clients a h1)
        | some w =>
          have hcl : (dispatch ⟨s1.clients, topic⟩ a s1.nick ⟨id, .newNick text⟩ now).server.clients
              = hmUpdate s1.clients a (rustTrim text) := by
            simp [dispatch, hg]
          have hex : (dispatch ⟨s1.clients, topic⟩ a s1.nick ⟨id, .newNick text⟩ now).exit
              = false := by
            simp [dispatch, hg]
          constructor
          · intro _
            show countKey (dispatch ⟨s1.clients, topic⟩ a s1.nick ⟨id, .newNick text⟩ now).server.clients a = 1
            rw [hcl, countKey_hmUpdate]
            exact h1
          · intro hne
            exact absurd (by show (if _ then _ else _) = _; rw [hex]; rfl) hne
      | disconnect =>
        constructor
        · intro hph
          exact absurd hph (by intro hc; exact Phase.noConfusion hc)
        · intro _
          exact countKey_hmRemove_self s1.clients a
    | streamEnd hact =>
      exact ⟨nofun, fun _ => countKey_hmRemove_self s1.clients a⟩
    | cleanupAfterDisconnect hph =>
      exact ⟨nofun, fun _ => countKey_hmRemove_self s1.clients a⟩
    | envInsert b v hba =>
      exact ⟨fun hph => (countKey_hmInsert_ne s1.clients b v a hba).trans (ih.1 hph),
        fun hne => (countKey_hmInsert_ne s1.clients b v a hba).trans (ih.2 hne)⟩
    | envUpdate b v hba =>
      exact ⟨fun hph => (countKey_hmUpdate s1.clients b v a).trans (ih.1 hph),
        fun hne => (countKey_hmUpdate s1.clients b v a).trans (ih.2 hne)⟩
    | envRemove b hba =>
      exact ⟨fun hph => (countKey_hmRemove_ne s1.clients b a hba).trans (ih.1 hph),
        fun hne => (countKey_hmRemove_ne s1.clients b a hba).trans (ih.2 hne)⟩

end Solace.Srv

open Solace Solace.Msg

/-- Claim C1 — the parser is NOT total: on the empty string (and on a
whitespace-only string) `Lexer::lex` produces only the `Eof` token, the node
list collected by `impl Parse for AstMessage` is empty, and the
`None => unreachable!()` arm panics.  The embedding returns `none` exactly
at that panic, so `solaceParse` evaluates to `none` on both inputs. -/
theorem c1_parser_panics_on_empty_input :
    solaceParse "" = none ∧ solaceParse " " = none :=
  ⟨rfl, rfl⟩

/-- Claim C2, counterexample — the first response written for a decoded
request with id 7 is the ack, but its `request_id` header field is 0, not 7:
the `respond!` macro never calls `with_request_id`, so the builder default
survives. -/
theorem c2_ack_request_id_is_zero :
    Option.map Proto.Response.request_id
      (Srv.dispatch ⟨[(0, "ALPHA")], "[No topic]"⟩ 0 "ALPHA" ⟨7, .ping⟩
        100).writes.head? = some 0 ∧
    (0 : Nat) ≠ 7 :=
  ⟨rfl, by decide⟩

/-- Claim C2, amended — for every decoded request the first response written
on the session's outbound stream, before any response caused by dispatching
the request, is the `AckMessage` (code 0) whose payload is the decimal
rendering of the request id; its `request_id` field is the builder default
0. -/
theorem c2_ack_written_first_with_decimal_payload
    (sv : Srv.Server) (addr : Srv.Addr) (nick : String) (r : Srv.Req)
    (now : Nat) :
    (Srv.dispatch sv addr nick r now).writes.head? =
      some (Srv.build now Srv.RES_ACK_MESSAGE [] (Srv.decimalBytes r.id)) := by
  obtain ⟨id, msg⟩ := r
  cases msg with
  | ping => rfl
  | message text => rfl
  | newTopic text => rfl
  | newNick text =>
    cases hg : Srv.hmGet sv.clients addr with
    | none => simp [Srv.dispatch, hg]
    | some w => simp [Srv.dispatch, hg]
  | whoIs target => rfl
  | disconnect => rfl

/-- Claim C3 — record-level round trip of the bincode wire codec: for every
well-formed `Request` and `Response` (integer fields within their declared
widths, string fields valid UTF-8 of `u64` length), decoding the encoding
yields the record back; the `\r\n` appended by `encode` is trailing data the
legacy bincode `deserialize` ignores, so string fields may freely contain
the byte pair `\r\n`. -/
theorem c3_encode_decode_roundtrip :
    (∀ r : Proto.Request, r.wf → Proto.Request.decode r.encode = some r) ∧
    (∀ s : Proto.Response, s.wf → Proto.Response.decode s.encode = some s) := by
  constructor
  · rintro ⟨v, i, m⟩ ⟨h1, h2, h3⟩
    simp only [Proto.Request.encode, Proto.Request.decode, List.append_assoc,
      Proto.readLE_leBytes 1 v _ h1, Proto.readLE_leBytes 4 i _ h2,
      Proto.readReqMessage_serialize m _ h3]
  · rintro ⟨v, rid, ts, c, ol, og, msg⟩ ⟨h1, h2, h3, h4, h5, h6, h7, h8, h9⟩
    simp only [Proto.Response.encode, Proto.Response.decode, List.append_assoc,
      Proto.readLE_leBytes 1 v _ h1, Proto.readLE_leBytes 4 rid _ h2,
      Proto.readLE_leBytes 8 ts _ h3, Proto.readLE_leBytes 2 c _ h4,
      Proto.readLE_leBytes 1 ol _ h5,
      Proto.readStr_serializeStr og _ h6 h7,
      Proto.readStr_serializeStr msg _ h8 h9]

/-- Claim C3, witness — concrete round trips, with the byte pair `\r\n`
(13, 10) inside the string payloads. -/
theorem c3_roundtrip_witness :
    Proto.Request.decode
        (Proto.Request.encode ⟨1, 7, .message [104, 105, 13, 10, 33]⟩) =
      some ⟨1, 7, .message [104, 105, 13, 10, 33]⟩ ∧
    Proto.Response.decode
        (Proto.Response.encode ⟨1, 7, 1700000000, 200, 2, [65, 66],
          [104, 13, 10, 33]⟩) =
      some ⟨1, 7, 1700000000, 200, 2, [65, 66], [104, 13, 10, 33]⟩ :=
  ⟨c3_encode_decode_roundtrip.1 ⟨1, 7, .message [104, 105, 13, 10, 33]⟩
      (by decide),
   c3_encode_decode_roundtrip.2 ⟨1, 7, 1700000000, 200, 2, [65, 66],
      [104, 13, 10, 33]⟩ (by decide)⟩

/-- Claim C4, counterexample — parsing `"a b"` yields two `Text` nodes with
spans `[0,1)` and `[2,3)` and values `"a"` and `"b"`.  The whitespace run at
position 1 is covered by no node (the committed lexer's `eat_whitespace`
advances without emitting a token), and the values concatenate to `"ab"`,
not to the input `"a b"`. -/
theorem c4_span_coverage_gap :
    solaceParse "a b" =
      some (.normal [.text ⟨0, 1⟩ "a", .text ⟨2, 3⟩ "b"]) ∧
    (∀ sp ∈ [TextSpan.mk 0 1, TextSpan.mk 2 3], ¬(sp.c0 ≤ 1 ∧ 1 < sp.c1)) ∧
    "a" ++ "b" ≠ "a b" := by
  refine ⟨rfl, ?_, by decide⟩
  decide

/-- Claim C5, counterexample — the first non-whitespace grapheme of `" /a"`
is at position 1, yet the committed lexer (which strips leading whitespace
before classifying and has no absolute-position check) lexes `"/a"` as a
`Command` token and the parse result is `AstMessage::Command`, not
`Normal`. -/
theorem c5_leading_whitespace_slash_parses_as_command :
    solaceParse " /a" =
      some (.command (.command ⟨1, 3⟩ "/a" "a" [])) ∧
    rustIsWhitespace ' ' = true ∧
    (∀ ns, solaceParse " /a" ≠ some (.normal ns)) := by
  refine ⟨rfl, rfl, ?_⟩
  intro ns h
  rw [show solaceParse " /a" =
    some (.command (.command ⟨1, 3⟩ "/a" "a" [])) from rfl] at h
  exact absurd (Option.some.inj h) (by intro hc; cases hc)

/-- Claim C6, counterexample — parsing `"/a /b"` produces a command whose
`args` list holds a nested `AstNode::Command` for `"/b"` (the committed
lexer classifies any slash-initial word as a `Command` token and the
parser's args loop builds a `Command` node from it), not a `Text` node. -/
theorem c6_later_slash_becomes_nested_command :
    solaceParse "/a /b" =
      some (.command (.command ⟨0, 2⟩ "/a" "a"
        [.command ⟨3, 5⟩ "/b" "b" []])) ∧
    (∀ sp v, AstNode.command ⟨3, 5⟩ "/b" "b" [] ≠ AstNode.text sp v) := by
  refine ⟨rfl, ?_⟩
  intro sp v h
  cases h

/-- Claim C7, counterexample — a `NewNick` whose trimmed argument is 17
bytes long is stored at full length in the session nickname and in the
membership map: the solace dispatcher applies no 16-byte truncation. -/
theorem c7_newNick_stored_untruncated :
    (Srv.dispatch ⟨[(0, "OLD")], "topic"⟩ 0 "OLD"
      ⟨3, .newNick "AAAAAAAAAAAAAAAAA"⟩ 9).nick = "AAAAAAAAAAAAAAAAA" ∧
    Srv.hmGet (Srv.dispatch ⟨[(0, "OLD")], "topic"⟩ 0 "OLD"
      ⟨3, .newNick "AAAAAAAAAAAAAAAAA"⟩ 9).server.clients 0 =
      some "AAAAAAAAAAAAAAAAA" ∧
    "AAAAAAAAAAAAAAAAA" ≠ "AAAAAAAAAAAAAAAA" :=
  ⟨rfl, rfl, by decide⟩

/-- Claim C7, amended — for every `NewNick` request processed for a
registered address, the whitespace-trimmed argument is stored unchanged (at
any length, with no truncation) in both the session nickname and the hub
membership map. -/
theorem c7_newNick_stores_trimmed_value (sv : Srv.Server) (addr : Srv.Addr)
    (nick text : String) (id now : Nat)
    (h : Srv.hmGet sv.clients addr ≠ none) :
    (Srv.dispatch sv addr nick ⟨id, .newNick text⟩ now).nick =
      rustTrim text ∧
    Srv.hmGet (Srv.dispatch sv addr nick ⟨id, .newNick text⟩
      now).server.clients addr = some (rustTrim text) := by
  cases hg : Srv.hmGet sv.clients addr with
  | none => exact absurd hg h
  | some w =>
    constructor
    · simp [Srv.dispatch, hg]
    · have hcl : (Srv.dispatch sv addr nick ⟨id, .newNick text⟩
          now).server.clients = Srv.hmUpdate sv.clients addr (rustTrim text) := by
        simp [Srv.dispatch, hg]
      rw [hcl]
      exact Srv.hmGet_hmUpdate_self sv.clients addr (rustTrim text) h

/-- Claim C7, witness — concrete application of the amended statement. -/
theorem c7_newNick_witness :
    (Srv.dispatch ⟨[(0, "OLD")], "t"⟩ 0 "OLD"
      ⟨3, .newNick "  NEWNAME  "⟩ 0).nick = rustTrim "  NEWNAME  " ∧
    Srv.hmGet (Srv.dispatch ⟨[(0, "OLD")], "t"⟩ 0 "OLD"
      ⟨3, .newNick "  NEWNAME  "⟩ 0).server.clients 0 =
      some (rustTrim "  NEWNAME  ") :=
  c7_newNick_stores_trimmed_value ⟨[(0, "OLD")], "t"⟩ 0 "OLD"
    "  NEWNAME  " 3 0 (by decide)

/-- Claim C8 — the wangerz response decoder panics instead of reporting an
error on a short frame: a frame of 11 content bytes plus `\r\n` passes the
`parseable.len() < 13` guard (which counts the terminator), and the
unchecked read of `parseable[13]` indexes out of bounds.  A frame of 5
content bytes does hit the guard and returns the error after draining the
damaged frame, so decoding could resume at the next `\r\n`. -/
theorem c8_short_frame_decoder_panics :
    WProto.wTryFrom (List.replicate 11 0 ++ [13, 10]) = .panic ∧
    WProto.wTryFrom (List.replicate 5 0 ++ [13, 10]) =
      .err "Invalid response: too short" [] :=
  ⟨rfl, rfl⟩

/-- Claim C9 — a `NewTopic` request stores the whitespace-trimmed text as
the hub topic and broadcasts a `TopicChanged` event carrying that same
trimmed value to every member; a whitespace-only text trims to the empty
string, so the topic becomes empty. -/
theorem c9_newTopic_trims_and_broadcasts :
    (∀ (sv : Srv.Server) (addr : Srv.Addr) (nick text : String)
        (id now : Nat),
      (Srv.dispatch sv addr nick ⟨id, .newTopic text⟩ now).server.topic =
        rustTrim text ∧
      (Srv.dispatch sv addr nick ⟨id, .newTopic text⟩ now).queued =
        sv.clients.map
          (fun p => (p.1, Srv.HubMessage.topicChanged addr nick
            (rustTrim text)))) ∧
    (∀ t : String, t.data.all rustIsWhitespace = true → rustTrim t = "") := by
  constructor
  · intro sv addr nick text id now
    exact ⟨rfl, rfl⟩
  · intro t ht
    have hd : t.data.dropWhile rustIsWhitespace = [] := by
      rw [List.dropWhile_eq_nil_iff]
      intro x hx
      exact List.all_eq_true.mp ht x hx
    rw [rustTrim, hd]
    rfl

/-- Claim C9, witness — concrete topic change with padded text, and a
whitespace-only text trimming to the empty string. -/
theorem c9_newTopic_witness :
    ((Srv.dispatch ⟨[(0, "A"), (1, "B")], "old"⟩ 0 "A"
        ⟨11, .newTopic "  about cats  "⟩ 5).server.topic =
          rustTrim "  about cats  " ∧
      (Srv.dispatch ⟨[(0, "A"), (1, "B")], "old"⟩ 0 "A"
        ⟨11, .newTopic "  about cats  "⟩ 5).queued =
          [(0, "A"), (1, "B")].map
            (fun p => (p.1, Srv.HubMessage.topicChanged 0 "A"
              (rustTrim "  about cats  ")))) ∧
    rustTrim " \t " = "" :=
  ⟨c9_newTopic_trims_and_broadcasts.1 ⟨[(0, "A"), (1, "B")], "old"⟩ 0 "A"
      "  about cats  " 11 5,
   c9_newTopic_trims_and_broadcasts.2 " \t " (by decide)⟩

/-- Claim C10 — from registration until an exit path, every reachable state
keeps exactly one membership entry for the session's address while the
session loop is active, the `get_mut(&addr).unwrap()` in the `NewNick`
branch cannot panic there, and after an orderly `Disconnect` (which already
removed the entry) the final cleanup's removal is a no-op. -/
theorem c10_membership_map_invariant (a : Srv.Addr) (s : Srv.LoopState)
    (h : Srv.Reach a s) :
    (s.phase = .active →
      Srv.countKey s.clients a = 1 ∧
      ∀ (r : Srv.Req) (now : Nat) (topic : String),
        (Srv.dispatch ⟨s.clients, topic⟩ a s.nick r now).panicked = false) ∧
    (s.phase = .leftOrderly → Srv.hmRemove s.clients a = s.clients) := by
  have inv := Srv.reach_inv a s h
  constructor
  · intro hph
    have h1 := inv.1 hph
    refine ⟨h1, ?_⟩
    intro r now topic
    obtain ⟨id, msg⟩ := r
    cases msg with
    | ping => rfl
    | message text => rfl
    | newTopic text => rfl
    | newNick text =>
      cases hg : Srv.hmGet s.clients a with
      | none => exact absurd hg (Srv.hmGet_ne_none_of_countKey_one s.clients a h1)
      | some w => simp [Srv.dispatch, hg]
    | whoIs target => rfl
    | disconnect => rfl
  · intro hph
    have h0 := inv.2 (by rw [hph]; decide)
    exact Srv.hmRemove_of_countKey_zero s.clients a h0

/-- Claim C10, witness — the freshly registered session has exactly one
membership entry. -/
theorem c10_membership_witness :
    Srv.countKey (Srv.hmInsert ([] : List (Srv.Addr × String)) 0 "NICK") 0
      = 1 :=
  ((c10_membership_map_invariant 0
      ⟨Srv.hmInsert [] 0 "NICK", "NICK", .active⟩
      (Srv.Reach.init [] "NICK" rfl)).1 rfl).1
